import Mathlib

/-!
# Verification of `summarization_from_pretrained_mbart_joint.py`

A shallow embedding of the task plugin
`fairseq/examples/summarization/tasks/summarization_from_pretrained_mbart_joint.py`
from the CALMS repository, together with theorems settling the claims about it.

Datasets of tokenized sequences are modelled as `List (List ℕ)` (one inner list
per example), the on-disk collection of indexed datasets as a partial map from
filenames to their contents, and token dictionaries as a lookup function plus
the special `eos`/`bos` indices.  The framework dataset wrappers
(`AppendTokenDataset`, `PrependTokenDataset`, `TruncateDataset`,
`StripTokenDataset`, `ConcatDataset`, `SortDataset`) live in `fairseq.data`,
which is not part of this repository slice; they are modelled from the spec's
description of them as sequence-level transformations.
-/

/-- A token dictionary: `index` is the symbol lookup (`Dictionary.index`),
`eos`/`bos` the special-token indices returned by `Dictionary.eos()` /
`Dictionary.bos()`. -/
structure Dict where
  index : String → ℕ
  eos : ℕ
  bos : ℕ

/-- The collection of indexed datasets on disk: a filename maps to the list of
tokenized sequences stored under that name, when the dataset exists. -/
def IndexedFS : Type := String → Option (List (List ℕ))

/-- `indexed_dataset.dataset_exists(filename)`: the dataset is present on disk.
`data_utils.load_indexed_dataset` returns `None` exactly when it is absent,
hence existence is presence in the map. -/
def dataset_exists (fs : IndexedFS) (filename : String) : Bool :=
  (fs filename).isSome

/-- `os.path.join(a, b)` for the simple relative components used here. -/
def pathJoin (a b : String) : String := a ++ "/" ++ b

/-- `'[{}]'.format(lang)`: the surface form of a language-id token. -/
def langTok (lang : String) : String := "[" ++ lang ++ "]"

/-- Python `str.split(sep)` on the character list (single-character separator,
which is all this file uses: `','`, `':'`, `'_'`). -/
def pySplitAux (sep : Char) : List Char → List (List Char)
  | [] => [[]]
  | c :: rest =>
    match pySplitAux sep rest with
    | [] => [[c]]
    | g :: gs => if c = sep then [] :: g :: gs else (c :: g) :: gs

/-- Python `s.split(sep)` for a single-character separator. -/
def pySplit (s : String) (sep : Char) : List String :=
  (pySplitAux sep s.data).map (fun l => ⟨l⟩)

/-- Python `sep.join(parts)`. -/
def pyJoin (sep : String) : List String → String
  | [] => ""
  | [x] => x
  | x :: y :: rest => x ++ sep ++ pyJoin sep (y :: rest)

/-- Python substring containment `needle in hay` on character lists. -/
def hasSubstrL (needle : List Char) : List Char → Bool
  | [] => needle.isEmpty
  | c :: t => needle.isPrefixOf (c :: t) || hasSubstrL needle t

/-- Python `needle in hay` for strings (substring containment). -/
def strContains (hay needle : String) : Bool :=
  hasSubstrL needle.data hay.data

/-- Python `str.replace` scan for a non-empty pattern: at each position, if the
pattern is a prefix, emit the replacement and skip the pattern, else keep the
character and advance. -/
def replaceL (pat rep : List Char) : List Char → List Char
  | [] => []
  | c :: rest =>
    if h : pat ≠ [] ∧ pat.isPrefixOf (c :: rest) then
      rep ++ replaceL pat rep (List.drop pat.length (c :: rest))
    else
      c :: replaceL pat rep rest
termination_by l => l.length
decreasing_by
  · simp only [List.length_drop, List.length_cons]
    have hp : 1 ≤ pat.length := by
      cases pat with
      | nil => exact absurd rfl h.1
      | cons a l => simp
    omega
  · simp

/-- Python `s.replace(old, new)`, including the empty-pattern behaviour
(`'ab'.replace('', 'X') = 'XaXbX'`). -/
def pyReplace (s old new : String) : String :=
  if old.data = [] then
    ⟨new.data ++ (s.data.map (fun c => c :: new.data)).flatten⟩
  else
    ⟨replaceL old.data new.data s.data⟩

/-! ## Framework dataset wrappers (modelled from the spec) -/

/-- Modelled from the spec: `AppendTokenDataset` (from `fairseq.data`, not in
src/) appends the given token to every sequence. -/
def appendTokenDataset (ds : List (List ℕ)) (tok : ℕ) : List (List ℕ) :=
  ds.map (fun s => s ++ [tok])

/-- Modelled from the spec: `PrependTokenDataset` (from `fairseq.data`, not in
src/) prepends the given token to every sequence. -/
def prependTokenDataset (ds : List (List ℕ)) (tok : ℕ) : List (List ℕ) :=
  ds.map (fun s => tok :: s)

/-- Modelled from the spec: `TruncateDataset` (from `fairseq.data`, not in
src/) keeps at most the first `n` tokens of every sequence. -/
def truncateDataset (ds : List (List ℕ)) (n : ℕ) : List (List ℕ) :=
  ds.map (List.take n)

/-- Modelled from the spec: `StripTokenDataset` (from `fairseq.data`, not in
src/) strips the given token from the ends of a sequence (the use here strips
the end-of-sentence token before re-appending it after truncation). -/
def stripSeq (tok : ℕ) (s : List ℕ) : List ℕ :=
  ((s.reverse.dropWhile (fun c => c = tok)).reverse).dropWhile (fun c => c = tok)

/-- Modelled from the spec: `StripTokenDataset` applied to every sequence. -/
def stripTokenDataset (ds : List (List ℕ)) (tok : ℕ) : List (List ℕ) :=
  ds.map (stripSeq tok)

/-- Modelled from the spec: `ConcatDataset` with sample ratios repeats each
constituent dataset `ratio` times and concatenates the results in order. -/
def concatWithRatios (dss : List (List (List ℕ))) (ratios : List ℕ) : List (List ℕ) :=
  (List.zipWith (fun d r => (List.replicate r d).flatten) dss ratios).flatten

/-! ## `load_langpair_sumdataset` (lines 36-137 of the source) -/

/-- `split_exists(split, src, tgt, lang, data_path)` nested in
`load_langpair_sumdataset`: checks `'{split}.{src}-{tgt}.{lang}'` under
`data_path`. -/
def split_exists (fs : IndexedFS) (split src tgt lang data_path : String) : Bool :=
  dataset_exists fs (pathJoin data_path (split ++ "." ++ src ++ "-" ++ tgt ++ "." ++ lang))

/-- `split_k = split + (str(k) if k > 0 else '')`. -/
def splitK (split : String) (k : ℕ) : String :=
  split ++ (if k > 0 then toString k else "")

/-- The filename stem chosen for shard `k` (lines 56-60): first the
`src-tgt` direction, then the `tgt-src` direction, `none` if neither exists. -/
def shardStem? (fs : IndexedFS) (data_path split src tgt : String) (k : ℕ) : Option String :=
  if split_exists fs (splitK split k) src tgt src data_path then
    some (pathJoin data_path (splitK split k ++ "." ++ src ++ "-" ++ tgt ++ "."))
  else if split_exists fs (splitK split k) tgt src src data_path then
    some (pathJoin data_path (splitK split k ++ "." ++ tgt ++ "-" ++ src ++ "."))
  else none

/-- The shard-collecting loop for `k ≥ 1` (the `itertools.count()` loop with
its `k > 0` break, lines 53-79): collect stems until the first missing shard.
`fuel` bounds the physically finite shard enumeration. -/
def gatherMore (fs : IndexedFS) (data_path split src tgt : String) : ℕ → ℕ → List String
  | 0, _ => []
  | fuel + 1, k =>
    match shardStem? fs data_path split src tgt k with
    | none => []
    | some p => p :: gatherMore fs data_path split src tgt fuel (k + 1)

/-- Shard discovery of `load_langpair_sumdataset`: the base shard must exist in
one of the two naming directions, else `FileNotFoundError`; further shards are
collected only when `combine` is set. -/
def gatherStems (fs : IndexedFS) (data_path split src tgt : String)
    (combine : Bool) (fuel : ℕ) : Except String (List String) :=
  match shardStem? fs data_path split src tgt 0 with
  | none => .error ("Dataset not found: " ++ split ++ " (" ++ data_path ++ ")")
  | some p0 =>
    if combine then .ok (p0 :: gatherMore fs data_path split src tgt fuel 1)
    else .ok [p0]

/-- The `LanguagePairDataset` built by `load_langpair_sumdataset`: source
sequences, optional target sequences, the optional `eos` override, and the
optional alignment data. -/
structure SumDS where
  src : List (List ℕ)
  tgt : Option (List (List ℕ))
  eos : Option ℕ
  align : Option (List (List ℕ))
deriving DecidableEq

/-- `len(LanguagePairDataset)` is the number of source sequences. -/
def SumDS.numExamples (d : SumDS) : ℕ := d.src.length

/-- `dataset.sizes` of the pair dataset, modelled as source lengths. -/
def SumDS.sizes (d : SumDS) : List ℕ := d.src.map List.length

/-- Body of `load_langpair_sumdataset` after the shard loop (lines 67-137):
load the shards named by the collected stems, concatenate with the upsample
ratios, then apply the bos / truncation / language-id stages. -/
def langpairFromStems (fs : IndexedFS) (stems : List String) (data_path split : String)
    (src : String) (src_dict : Dict) (src_lang : String)
    (tgt : String) (tgt_dict : Dict) (tgt_lang : String)
    (upsample_primary : ℕ) (max_source_positions : ℕ)
    (prepend_bos load_alignments truncate_source append_source_id trg_prepend : Bool) :
    SumDS :=
  let src_datasets := stems.map (fun p => (fs (p ++ src)).getD [])
  let tgt_datasets := stems.filterMap (fun p => fs (p ++ tgt))
  let src_dataset :=
    if src_datasets.length = 1 then src_datasets.headD []
    else concatWithRatios src_datasets
      (upsample_primary :: List.replicate (src_datasets.length - 1) 1)
  let tgt_dataset : Option (List (List ℕ)) :=
    if src_datasets.length = 1 then tgt_datasets.head?
    else if tgt_datasets.length > 0 then
      some (concatWithRatios tgt_datasets
        (upsample_primary :: List.replicate (src_datasets.length - 1) 1))
    else none
  let src_dataset :=
    if prepend_bos then prependTokenDataset src_dataset src_dict.bos else src_dataset
  let tgt_dataset :=
    if prepend_bos then tgt_dataset.map (fun t => prependTokenDataset t tgt_dict.bos)
    else tgt_dataset
  let src_dataset :=
    if truncate_source then
      appendTokenDataset
        (truncateDataset (stripTokenDataset src_dataset src_dict.eos)
          ((if append_source_id then max_source_positions - 1 else max_source_positions) - 1))
        src_dict.eos
    else src_dataset
  let align_dataset : Option (List (List ℕ)) :=
    if load_alignments then
      fs (pathJoin data_path (split ++ ".align." ++ src ++ "-" ++ tgt))
    else none
  if append_source_id then
    { src := appendTokenDataset src_dataset (src_dict.index (langTok src_lang))
      tgt := tgt_dataset.map (fun t =>
        appendTokenDataset
          (if trg_prepend then prependTokenDataset t (tgt_dict.index (langTok tgt_lang)) else t)
          (tgt_dict.index (langTok tgt_lang)))
      eos := some (tgt_dict.index (langTok tgt_lang))
      align := align_dataset }
  else
    { src := src_dataset, tgt := tgt_dataset, eos := none, align := align_dataset }

/-- `load_langpair_sumdataset` (lines 36-137): discover the shards (raising
`FileNotFoundError` when the base shard is absent in both naming directions),
then build the pair dataset from them. -/
def load_langpair_sumdataset (fs : IndexedFS) (data_path split : String)
    (src : String) (src_dict : Dict) (src_lang : String)
    (tgt : String) (tgt_dict : Dict) (tgt_lang : String)
    (combine : Bool) (upsample_primary : ℕ) (max_source_positions : ℕ)
    (prepend_bos load_alignments truncate_source append_source_id trg_prepend : Bool)
    (fuel : ℕ) : Except String SumDS :=
  match gatherStems fs data_path split src tgt combine fuel with
  | .error e => .error e
  | .ok stems =>
    .ok (langpairFromStems fs stems data_path split src src_dict src_lang
      tgt tgt_dict tgt_lang upsample_primary max_source_positions
      prepend_bos load_alignments truncate_source append_source_id trg_prepend)

/-! ## The task class `SummarizationFromPretrainedMBARTTaskJoint` -/

/-- The command-line/argument namespace of the task, restricted to the
attributes `load_dataset` reads.  Dynamically looked-up boolean attributes
(read through `getattr(args, name, False)`) are kept in `boolAttrs`, so an
absent attribute is `none` — this models that `getattr` falls back to the
default when the exact attribute name is not defined. -/
structure Args where
  data : String
  source_lang : String
  target_lang : String
  langs_for_sum : String
  fix2x : String
  valid_subset : String
  upsample_primary : ℕ
  truncate_source : Bool
  load_alignments : Bool
  max_source_positions : ℕ
  seed : ℕ
  boolAttrs : String → Option Bool

/-- A value registered in `self.datasets`: a plain `LanguagePairDataset`, a
`ConcatDataset` of such, or a `SortDataset` view over a dataset with a sort
order (the shuffle permutation, tie-broken by sizes). -/
inductive RegDS where
  | pair (d : SumDS)
  | concat (ds : List SumDS)
  | sorted (base : RegDS) (ord : List ℕ) (sizes : List ℕ)
deriving DecidableEq

/-- `dataset.sizes` of a `ConcatDataset` of pair datasets. -/
def concatSizes (ds : List SumDS) : List ℕ :=
  (ds.map SumDS.sizes).flatten

/-- The example stream a registered dataset presents (source sequences stand
for examples): concatenation flattens in order, the sorted view reorders its
base by the sort order. -/
def RegDS.examples : RegDS → List (List ℕ)
  | .pair d => d.src
  | .concat ds => (ds.map SumDS.src).flatten
  | .sorted base ord _ => ord.map (fun i => base.examples.getD i [])

/-- `len(dataset)` for a registered dataset. -/
def RegDS.numExamples (d : RegDS) : ℕ := d.examples.length

/-- Whether a registered dataset is a `SortDataset` (shuffled) view. -/
def RegDS.isSortedView : RegDS → Bool
  | .sorted _ _ _ => true
  | _ => false

/-- The mutable `self.datasets` mapping together with the (mutated)
`self.args.valid_subset` after a `load_dataset` call. -/
structure TaskState where
  datasets : String → Option RegDS
  valid_subset : String

/-- `self.datasets[name] = value`. -/
def updateReg (r : String → Option RegDS) (k : String) (v : RegDS) :
    String → Option RegDS :=
  fun n => if n = k then some v else r n

/-- The per-language loading step of `load_dataset` (lines 197-220): the
corpus directory is the subdirectory of `data_path` named by the language
code before the first underscore, the source language id is `args.fix2x`
when that string is non-empty and `lang` otherwise, and
`load_langpair_sumdataset` is called with `append_source_id=True`,
`prepend_bos=getattr(args, 'preprend_bos', False)` and
`trg_prepend=getattr(args, 'trg_prepend', False)`. -/
def loadLangDataset (fs : IndexedFS) (args : Args) (src_dict tgt_dict : Dict)
    (split : String) (combine : Bool) (fuel : ℕ) (data_path : String)
    (lang : String) : Except String SumDS :=
  let code := (pySplit lang '_').headD ""
  let lang_path := pathJoin data_path code
  let srclang := if args.fix2x ≠ "" then args.fix2x else lang
  load_langpair_sumdataset fs lang_path split
    args.source_lang src_dict srclang
    args.target_lang tgt_dict lang
    combine args.upsample_primary args.max_source_positions
    ((args.boolAttrs "preprend_bos").getD false)
    args.load_alignments args.truncate_source true
    ((args.boolAttrs "trg_prepend").getD false) fuel

/-- `SummarizationFromPretrainedMBARTTaskJoint.load_dataset` (lines 182-257):
pick the epoch's data path, load one pair dataset per entry of
`langs_for_sum`, register each under `split + '_' + lang`, extend
`valid_subset` when `split` occurs in it, build the concatenation, assign its
shuffled `SortDataset` view to `datasets[split]`, and then (line 256)
reassign `datasets[split] = dataset`, the unshuffled concatenation.
`perm seed n` models `np.random.permutation(n)` under `numpy_seed(seed)`. -/
def load_dataset (fs : IndexedFS) (args : Args) (src_dict tgt_dict : Dict)
    (perm : ℕ → ℕ → List ℕ) (st : TaskState) (split : String) (epoch : ℕ)
    (combine : Bool) (fuel : ℕ) : Except String TaskState :=
  let paths := pySplit args.data ':'
  let data_path := paths.getD ((epoch - 1) % paths.length) ""
  let languages := pySplit args.langs_for_sum ','
  match languages.mapM (loadLangDataset fs args src_dict tgt_dict split combine fuel data_path) with
  | .error e => .error e
  | .ok lang_datasets =>
    let dataset := RegDS.concat lang_datasets
    let names := List.zipWith (fun lang d => (split ++ "_" ++ lang, d)) languages lang_datasets
    let lang_splits := split :: names.map Prod.fst
    let reg1 := names.foldl (fun r p => updateReg r p.1 (RegDS.pair p.2)) st.datasets
    let valid1 :=
      if strContains args.valid_subset split then
        pyReplace args.valid_subset split (pyJoin "," lang_splits)
      else args.valid_subset
    let shuffle := perm (args.seed + epoch) dataset.numExamples
    let reg2 := updateReg reg1 split (RegDS.sorted dataset shuffle (concatSizes lang_datasets))
    let reg3 := updateReg reg2 split dataset
    .ok { datasets := reg3, valid_subset := valid1 }

/-! ## `build_generator` (lines 265-288) -/

/-- The getattr-read generation arguments of `build_generator`; `none` models
an absent attribute so that `getattr(args, name, default)` falls back. -/
structure GenArgs where
  score_reference : Option Bool
  beam : Option ℕ
  max_len_a : Option ℕ
  max_len_b : Option ℕ
  min_len : Option ℕ
  unnormalized : Option Bool
  lenpen : Option ℚ
  unkpen : Option ℚ
  temperature : Option ℚ
  match_source_len : Option Bool
  no_repeat_ngram_size : Option ℕ

/-- The inference object returned by `build_generator`, recorded as the
framework class applied to its constructor arguments.  `M` abstracts the
model ensemble. -/
inductive GenObj (M : Type) where
  | scorer (tgt_dict : Dict) (eos : ℕ)
  | generator (models : M) (tgt_dict : Dict)
      (beam_size max_len_a max_len_b min_len : ℕ)
      (normalize_scores : Bool)
      (len_penalty unk_penalty temperature : ℚ)
      (match_source_len : Bool) (no_repeat_ngram_size : ℕ) (eos : ℕ)

/-- Modelled from the spec: the host framework's construction of a
`SequenceScorer` (from `fairseq.sequence_scorer`, not in src/) for a target
dictionary and an `eos` index — the object is exactly the class applied to
those arguments. -/
def frameworkSequenceScorer (M : Type) (tgt_dict : Dict) (eos : ℕ) : GenObj M :=
  .scorer tgt_dict eos

/-- Modelled from the spec: the host framework's construction of a
`SequenceGenerator` (from `fairseq.sequence_generator`, not in src/) for the
given arguments — the object is exactly the class applied to those
arguments. -/
def frameworkSequenceGenerator (M : Type) (models : M) (tgt_dict : Dict)
    (beam_size max_len_a max_len_b min_len : ℕ) (normalize_scores : Bool)
    (len_penalty unk_penalty temperature : ℚ) (match_source_len : Bool)
    (no_repeat_ngram_size : ℕ) (eos : ℕ) : GenObj M :=
  .generator models tgt_dict beam_size max_len_a max_len_b min_len
    normalize_scores len_penalty unk_penalty temperature match_source_len
    no_repeat_ngram_size eos

/-- `build_generator` (lines 265-288): a `SequenceScorer` when
`score_reference` is set, else a `SequenceGenerator`; in both cases the `eos`
argument is the target-dictionary index of `'[sum_lang]'`. -/
def build_generator (M : Type) (models : M) (target_dictionary : Dict)
    (sum_lang : String) (args : GenArgs) : GenObj M :=
  if (args.score_reference.getD false) then
    GenObj.scorer target_dictionary (target_dictionary.index (langTok sum_lang))
  else
    GenObj.generator models target_dictionary
      (args.beam.getD 5) (args.max_len_a.getD 0) (args.max_len_b.getD 200)
      (args.min_len.getD 1) (!(args.unnormalized.getD false))
      (args.lenpen.getD 1) (args.unkpen.getD 0) (args.temperature.getD 1)
      (args.match_source_len.getD false) (args.no_repeat_ngram_size.getD 0)
      (target_dictionary.index (langTok sum_lang))

/-! ## `build_dataset_for_inference` (lines 290-297) -/

/-- `build_dataset_for_inference`: append the source-dictionary index of
`'[doc_lang]'` to every input sequence and wrap into a
`LanguagePairDataset` (here: the list of source sequences). -/
def build_dataset_for_inference (source_dictionary : Dict) (doc_lang : String)
    (src_tokens : List (List ℕ)) : List (List ℕ) :=
  src_tokens.map (fun s_t => s_t ++ [source_dictionary.index (langTok doc_lang)])

/-! ## `_get_sample_prob` (lines 299-308), over exact rationals -/

/-- `_get_sample_prob(dataset_lens)`: normalize, smooth with the exponent
fixed at `1.0`, and renormalize.  The numpy float vector is modelled as a
list of exact rationals. -/
def get_sample_prob (dataset_lens : List ℚ) : List ℚ :=
  let prob := dataset_lens.map (fun x => x / dataset_lens.sum)
  let smoothed_prob := prob.map (fun p => p ^ (1 : ℕ))
  smoothed_prob.map (fun p => p / smoothed_prob.sum)

/-! ## Helper lemmas -/

lemma splitK_zero (s : String) : splitK s 0 = s := by
  have : s ++ "" = s := by
    apply String.ext
    simp [String.data_append]
  simpa [splitK]

lemma gatherMore_of_first_missing (fs : IndexedFS) (dp sp s t : String) :
    ∀ (m k fuel : ℕ),
      (∀ j, j < m → (shardStem? fs dp sp s t (k + j)).isSome) →
      shardStem? fs dp sp s t (k + m) = none → m ≤ fuel →
      gatherMore fs dp sp s t fuel k =
        (List.range' k m).map (fun i => (shardStem? fs dp sp s t i).getD "") := by
  intro m
  induction m with
  | zero =>
    intro k fuel _ hnone _
    rw [Nat.add_zero] at hnone
    cases fuel with
    | zero => simp [gatherMore, List.range']
    | succ f => simp [gatherMore, hnone, List.range']
  | succ m ih =>
    intro k fuel hall hnone hle
    obtain ⟨f, rfl⟩ : ∃ f, fuel = f + 1 := ⟨fuel - 1, by omega⟩
    have h0 : (shardStem? fs dp sp s t k).isSome := by
      have := hall 0 (by omega)
      simpa using this
    obtain ⟨p, hp⟩ := Option.isSome_iff_exists.mp h0
    rw [List.range'_succ, List.map_cons]
    simp only [gatherMore, hp]
    rw [ih (k + 1) f ?_ ?_ (by omega)]
    · rfl
    · intro j hj
      have := hall (j + 1) (by omega)
      rwa [show k + (j + 1) = k + 1 + j by omega] at this
    · rwa [show k + 1 + m = k + (m + 1) by omega]

lemma except_bind_error {α β : Type} (e : String) (k : α → Except String β) :
    ((Except.error e : Except String α) >>= k) = Except.error e := rfl

lemma except_bind_ok {α β : Type} (a : α) (k : α → Except String β) :
    ((Except.ok a : Except String α) >>= k) = k a := rfl

lemma mapM'_ok_length {α β : Type} (f : α → Except String β) :
    ∀ (l : List α) (ds : List β), List.mapM' f l = .ok ds → ds.length = l.length := by
  intro l
  induction l with
  | nil =>
    intro ds h
    cases h
    rfl
  | cons a t ih =>
    intro ds h
    rw [List.mapM'] at h
    cases hfa : f a with
    | error e => rw [hfa, except_bind_error] at h; cases h
    | ok b =>
      rw [hfa, except_bind_ok] at h
      cases hft : List.mapM' f t with
      | error e => rw [hft, except_bind_error] at h; cases h
      | ok bs =>
        rw [hft, except_bind_ok] at h
        cases h
        simp [ih bs hft]

lemma mapM_ok_length {α β : Type} (f : α → Except String β) (l : List α) (ds : List β)
    (h : l.mapM f = .ok ds) : ds.length = l.length :=
  mapM'_ok_length f l ds (by rwa [List.mapM'_eq_mapM])

lemma mapM'_ok_get {α β : Type} (f : α → Except String β) :
    ∀ (l : List α) (ds : List β), List.mapM' f l = .ok ds →
      ∀ (i : ℕ) (hi : i < l.length) (hd : i < ds.length),
        f (l.get ⟨i, hi⟩) = .ok (ds.get ⟨i, hd⟩) := by
  intro l
  induction l with
  | nil => intro ds h i hi; exact absurd hi (by simp)
  | cons a t ih =>
    intro ds h i hi hd
    rw [List.mapM'] at h
    cases hfa : f a with
    | error e => rw [hfa, except_bind_error] at h; cases h
    | ok b =>
      rw [hfa, except_bind_ok] at h
      cases hft : List.mapM' f t with
      | error e => rw [hft, except_bind_error] at h; cases h
      | ok bs =>
        rw [hft, except_bind_ok] at h
        cases h
        cases i with
        | zero => simpa using hfa
        | succ j =>
          have hj : j < t.length := by simpa using hi
          have hjd : j < bs.length := by simpa using hd
          simpa using ih bs hft j hj hjd

lemma mapM_ok_get {α β : Type} (f : α → Except String β) (l : List α) (ds : List β)
    (h : l.mapM f = .ok ds) (i : ℕ) (hi : i < l.length) (hd : i < ds.length) :
    f (l.get ⟨i, hi⟩) = .ok (ds.get ⟨i, hd⟩) :=
  mapM'_ok_get f l ds (by rwa [List.mapM'_eq_mapM]) i hi hd

lemma foldl_updateReg_not_mem :
    ∀ (ps : List (String × SumDS)) (r0 : String → Option RegDS) (k : String),
      k ∉ ps.map Prod.fst →
      ps.foldl (fun r p => updateReg r p.1 (RegDS.pair p.2)) r0 k = r0 k := by
  intro ps
  induction ps with
  | nil => intro r0 k _; rfl
  | cons p t ih =>
    intro r0 k hk
    simp only [List.map_cons, List.mem_cons, not_or] at hk
    rw [List.foldl_cons, ih _ k hk.2]
    simp [updateReg, hk.1]

lemma foldl_updateReg_get :
    ∀ (ps : List (String × SumDS)) (r0 : String → Option RegDS),
      (ps.map Prod.fst).Nodup →
      ∀ (i : ℕ) (hi : i < ps.length),
        ps.foldl (fun r p => updateReg r p.1 (RegDS.pair p.2)) r0 (ps.get ⟨i, hi⟩).1 =
          some (RegDS.pair (ps.get ⟨i, hi⟩).2) := by
  intro ps
  induction ps with
  | nil => intro r0 _ i hi; exact absurd hi (by simp)
  | cons p t ih =>
    intro r0 hnd i hi
    simp only [List.map_cons, List.nodup_cons] at hnd
    cases i with
    | zero =>
      have hg : ((p :: t).get ⟨0, hi⟩) = p := rfl
      simp only [List.foldl_cons, hg]
      rw [foldl_updateReg_not_mem t _ _ hnd.1]
      simp [updateReg]
    | succ j =>
      have hj : j < t.length := by simpa using hi
      have hg : ((p :: t).get ⟨j + 1, hi⟩) = t.get ⟨j, hj⟩ := rfl
      simp only [List.foldl_cons, hg]
      exact ih _ hnd.2 j hj

lemma zipWith_pair_fst {α β γ : Type} (g : α → γ) :
    ∀ (as : List α) (bs : List β), bs.length = as.length →
      (List.zipWith (fun a b => (g a, b)) as bs).map Prod.fst = as.map g := by
  intro as
  induction as with
  | nil => intro bs _; simp
  | cons a t ih =>
    intro bs h
    cases bs with
    | nil => simp at h
    | cons b bt =>
      simp only [List.zipWith_cons_cons, List.map_cons]
      rw [ih bt (by simpa using h)]

lemma append_key_ne (s a : String) : s ++ "_" ++ a ≠ s := by
  intro h
  have hd := congrArg String.data h
  simp only [String.data_append, List.append_assoc] at hd
  have h2 : ("_" : String).data ++ a.data = ([] : List Char) :=
    List.append_cancel_left (hd.trans (List.append_nil s.data).symm)
  have h3 : ("_" : String).data = ['_'] := rfl
  rw [h3] at h2
  simp at h2

lemma append_key_inj (s : String) :
    Function.Injective (fun a : String => s ++ "_" ++ a) := by
  intro a b h
  have hd := congrArg String.data h
  simp only [String.data_append, List.append_assoc] at hd
  have h2 := List.append_cancel_left hd
  have h3 := List.append_cancel_left h2
  exact String.ext h3

lemma listSum_map_div (l : List ℚ) (c : ℚ) :
    (l.map (fun x => x / c)).sum = l.sum / c := by
  induction l with
  | nil => simp
  | cons a t ih => simp [ih, add_div]

/-- With `append_source_id = true`, the result of `langpairFromStems` is the
language-token stage applied on top of earlier stages. -/
lemma langpairFromStems_shape (fs : IndexedFS) (stems : List String)
    (data_path split : String) (src : String) (src_dict : Dict) (src_lang : String)
    (tgt : String) (tgt_dict : Dict) (tgt_lang : String)
    (up msp : ℕ) (pb la ts tp : Bool) :
    ∃ (X : List (List ℕ)) (Y A : Option (List (List ℕ))),
      langpairFromStems fs stems data_path split src src_dict src_lang
          tgt tgt_dict tgt_lang up msp pb la ts true tp =
        { src := appendTokenDataset X (src_dict.index (langTok src_lang))
          tgt := Y.map (fun t1 =>
            appendTokenDataset
              (if tp then prependTokenDataset t1 (tgt_dict.index (langTok tgt_lang)) else t1)
              (tgt_dict.index (langTok tgt_lang)))
          eos := some (tgt_dict.index (langTok tgt_lang))
          align := A } :=
  ⟨_, _, _, rfl⟩

/-- Destructuring a successful `load_langpair_sumdataset` call into the shard
discovery and the dataset construction. -/
lemma llps_ok_elim (fs : IndexedFS) (data_path split : String)
    (src : String) (src_dict : Dict) (src_lang : String)
    (tgt : String) (tgt_dict : Dict) (tgt_lang : String)
    (combine : Bool) (up msp : ℕ) (pb la ts asi tp : Bool) (fuel : ℕ) (d : SumDS)
    (h : load_langpair_sumdataset fs data_path split src src_dict src_lang
          tgt tgt_dict tgt_lang combine up msp pb la ts asi tp fuel = .ok d) :
    ∃ stems, gatherStems fs data_path split src tgt combine fuel = .ok stems ∧
      d = langpairFromStems fs stems data_path split src src_dict src_lang
            tgt tgt_dict tgt_lang up msp pb la ts asi tp := by
  unfold load_langpair_sumdataset at h
  cases hg : gatherStems fs data_path split src tgt combine fuel with
  | error e => rw [hg] at h; cases h
  | ok stems =>
    rw [hg] at h
    cases h
    exact ⟨stems, rfl, rfl⟩

/-- With `truncate_source = true` and `append_source_id = true`, the source
side of `langpairFromStems` is strip / truncate to `msp - 2` / re-append eos /
append the language-id token. -/
lemma langpairFromStems_trunc_shape (fs : IndexedFS) (stems : List String)
    (data_path split : String) (src : String) (src_dict : Dict) (src_lang : String)
    (tgt : String) (tgt_dict : Dict) (tgt_lang : String)
    (up msp : ℕ) (pb la tp : Bool) :
    ∃ X,
      (langpairFromStems fs stems data_path split src src_dict src_lang
          tgt tgt_dict tgt_lang up msp pb la true true tp).src =
        appendTokenDataset
          (appendTokenDataset
            (truncateDataset (stripTokenDataset X src_dict.eos) (msp - 1 - 1))
            src_dict.eos)
          (src_dict.index (langTok src_lang)) :=
  ⟨_, rfl⟩

/-! ## Concrete example data used by the witnesses -/

/-- A tiny on-disk layout: English and French document/summary corpora under
the per-language subdirectories of data path `d`. -/
def fsW : IndexedFS := fun f =>
  if f = "d/en/train.doc-sum.doc" then some [[1, 2]]
  else if f = "d/en/train.doc-sum.sum" then some [[3]]
  else if f = "d/fr/train.doc-sum.doc" then some [[4]]
  else if f = "d/fr/train.doc-sum.sum" then some [[5, 6]]
  else none

/-- A concrete dictionary: a symbol's index is its length. -/
def dictW : Dict := { index := String.length, eos := 2, bos := 0 }

/-- Concrete task arguments for two summarization languages. -/
def argsW : Args :=
  { data := "d", source_lang := "doc", target_lang := "sum",
    langs_for_sum := "en_XX,fr_XX", fix2x := "", valid_subset := "valid",
    upsample_primary := 1, truncate_source := false, load_alignments := false,
    max_source_positions := 10, seed := 0, boolAttrs := fun _ => none }

/-- A concrete (non-identity) permutation source: reversal. -/
def permW : ℕ → ℕ → List ℕ := fun _ n => (List.range n).reverse

/-- The empty task state before any `load_dataset` call. -/
def st0W : TaskState := { datasets := fun _ => none, valid_subset := "valid" }

/-- The English pair dataset `load_dataset` builds on `fsW`. -/
def dEnW : SumDS :=
  (loadLangDataset fsW argsW dictW dictW "train" false 5 "d" "en_XX").toOption.getD
    ⟨[], none, none, none⟩

/-- The French pair dataset `load_dataset` builds on `fsW`. -/
def dFrW : SumDS :=
  (loadLangDataset fsW argsW dictW dictW "train" false 5 "d" "fr_XX").toOption.getD
    ⟨[], none, none, none⟩

/-- Both per-language datasets in `langs_for_sum` order. -/
def dsW : List SumDS := [dEnW, dFrW]

/-- The task state after `load_dataset('train', epoch=1)` on `fsW`. -/
def stW : TaskState :=
  (load_dataset fsW argsW dictW dictW permW st0W "train" 1 false 5).toOption.getD
    ⟨fun _ => none, ""⟩

/-- A layout for shard discovery: the base shard exists only under the
reversed `sum-doc` naming, shard 1 under `doc-sum`, shard 2 is missing. -/
def fs4 : IndexedFS := fun f =>
  if f = "dp/train.sum-doc.doc" then some [[1]]
  else if f = "dp/train1.doc-sum.doc" then some [[2]]
  else none

/-- An empty layout: no dataset exists. -/
def fsNone : IndexedFS := fun _ => none

/-- A source-side dataset produced with truncation and source-id appending
enabled. -/
def d9W : SumDS :=
  (load_langpair_sumdataset fsW "d/en" "train" "doc" dictW "en_XX" "sum" dictW "en_XX"
      false 1 10 false false true true false 5).toOption.getD ⟨[], none, none, none⟩

/-- Arguments that define the correctly spelled `prepend_bos` attribute but
not the misspelled `preprend_bos` the code actually reads. -/
def args10 : Args :=
  { argsW with boolAttrs := fun n => if n = "prepend_bos" then some true else none }

/-! ## Claims -/

/-- C1: every per-language dataset built by `load_dataset` (which calls
`load_langpair_sumdataset` with `append_source_id=True`) has the source
language-id token `'[srclang]'` appended to every source sequence, where
`srclang` is `args.fix2x` when non-empty and `lang` otherwise; every target
sequence has `'[lang]'` appended, and additionally prepended exactly when
`trg_prepend` is set; the dataset's `eos` is the target-dictionary index of
`'[lang]'`. -/
theorem load_dataset_appends_language_id_tokens (fs : IndexedFS) (args : Args)
    (src_dict tgt_dict : Dict) (split : String) (combine : Bool) (fuel : ℕ)
    (data_path lang : String) (d : SumDS)
    (h : loadLangDataset fs args src_dict tgt_dict split combine fuel data_path lang = .ok d) :
    (∀ q ∈ d.src, ∃ u,
        q = u ++ [src_dict.index (langTok (if args.fix2x ≠ "" then args.fix2x else lang))]) ∧
    (∀ tl, d.tgt = some tl → ∀ q ∈ tl, ∃ u,
        q = (if (args.boolAttrs "trg_prepend").getD false
             then tgt_dict.index (langTok lang) :: u else u) ++
            [tgt_dict.index (langTok lang)]) ∧
    d.eos = some (tgt_dict.index (langTok lang)) := by
  simp only [loadLangDataset] at h
  obtain ⟨stems, hg, rfl⟩ := llps_ok_elim _ _ _ _ _ _ _ _ _ _ _ _ _ _ _ _ _ _ _ h
  obtain ⟨X, Y, A, hEq⟩ := langpairFromStems_shape fs stems
    (pathJoin data_path ((pySplit lang '_').headD "")) split
    args.source_lang src_dict (if args.fix2x ≠ "" then args.fix2x else lang)
    args.target_lang tgt_dict lang args.upsample_primary args.max_source_positions
    ((args.boolAttrs "preprend_bos").getD false) args.load_alignments
    args.truncate_source ((args.boolAttrs "trg_prepend").getD false)
  rw [hEq]
  refine ⟨?_, ?_, rfl⟩
  · intro q hq
    simp only [appendTokenDataset, List.mem_map] at hq
    obtain ⟨u, _, rfl⟩ := hq
    exact ⟨u, rfl⟩
  · intro tl htl q hq
    rw [Option.map_eq_some'] at htl
    obtain ⟨t1, _, rfl⟩ := htl
    simp only [appendTokenDataset, List.mem_map] at hq
    obtain ⟨y, hy, rfl⟩ := hq
    cases htp : (args.boolAttrs "trg_prepend").getD false with
    | false =>
      rw [htp] at hy
      simp only [Bool.false_eq_true, if_false] at hy ⊢
      exact ⟨y, rfl⟩
    | true =>
      rw [htp] at hy
      simp only [if_true, prependTokenDataset, List.mem_map] at hy
      obtain ⟨u, _, rfl⟩ := hy
      exact ⟨u, by simp⟩

/-- Witness for C1 at the concrete English dataset of `fsW`: the dataset's
`eos` is the target-dictionary index of `'[en_XX]'`. -/
theorem load_dataset_appends_language_id_tokens_witness :
    dEnW.eos = some (dictW.index (langTok "en_XX")) :=
  (load_dataset_appends_language_id_tokens fsW argsW dictW dictW "train" false 5 "d"
    "en_XX" dEnW rfl).2.2

/-- C9: when `truncate_source` and `append_source_id` are both set, every
source sequence of the dataset returned by `load_langpair_sumdataset` has
length at most `max_source_positions`: the eos token is stripped, the content
truncated to `max_source_positions - 2` tokens, the eos re-appended, then the
source language-id token appended. -/
theorem load_langpair_sumdataset_truncation_bound (fs : IndexedFS)
    (data_path split : String) (src : String) (src_dict : Dict) (src_lang : String)
    (tgt : String) (tgt_dict : Dict) (tgt_lang : String)
    (combine : Bool) (up msp : ℕ) (pb la tp : Bool) (fuel : ℕ) (d : SumDS)
    (hmsp : 2 ≤ msp)
    (h : load_langpair_sumdataset fs data_path split src src_dict src_lang
          tgt tgt_dict tgt_lang combine up msp pb la true true tp fuel = .ok d) :
    (∃ X, d.src = appendTokenDataset
        (appendTokenDataset
          (truncateDataset (stripTokenDataset X src_dict.eos) (msp - 2))
          src_dict.eos)
        (src_dict.index (langTok src_lang))) ∧
    ∀ q ∈ d.src, q.length ≤ msp := by
  obtain ⟨stems, hg, rfl⟩ := llps_ok_elim _ _ _ _ _ _ _ _ _ _ _ _ _ _ _ _ _ _ _ h
  obtain ⟨X, hX⟩ := langpairFromStems_trunc_shape fs stems data_path split
    src src_dict src_lang tgt tgt_dict tgt_lang up msp pb la tp
  constructor
  · refine ⟨X, ?_⟩
    rw [hX, Nat.sub_sub]
  · intro q hq
    rw [hX] at hq
    simp only [appendTokenDataset, truncateDataset, stripTokenDataset,
      List.map_map, List.mem_map] at hq
    obtain ⟨y, _, rfl⟩ := hq
    simp only [Function.comp_apply, List.length_append, List.length_take,
      List.length_singleton]
    have : min (msp - 1 - 1) (stripSeq src_dict.eos y).length ≤ msp - 1 - 1 :=
      Nat.min_le_left _ _
    omega

/-- Witness for C9 at a concrete truncating call. -/
theorem load_langpair_sumdataset_truncation_bound_witness :
    List.length [1, 2, 7] ≤ 10 :=
  (load_langpair_sumdataset_truncation_bound fsW "d/en" "train" "doc" dictW "en_XX"
    "sum" dictW "en_XX" false 1 10 false false false 5 d9W (by omega) rfl).2
    [1, 2, 7] (by decide)

/-- C5: `build_dataset_for_inference` returns a dataset whose `i`-th source
sequence is exactly the `i`-th input sequence with one token appended — the
source-dictionary index of `'[doc_lang]'` — preserving order and content. -/
theorem build_dataset_for_inference_appends_doc_lang_id (d : Dict)
    (doc_lang : String) (src_tokens : List (List ℕ)) :
    (build_dataset_for_inference d doc_lang src_tokens).length = src_tokens.length ∧
    ∀ i : ℕ, (build_dataset_for_inference d doc_lang src_tokens)[i]? =
      (src_tokens[i]?).map (fun s => s ++ [d.index (langTok doc_lang)]) := by
  refine ⟨by simp [build_dataset_for_inference], fun i => ?_⟩
  simp [build_dataset_for_inference]

/-- C7: with the smoothing exponent fixed at `1.0`, `_get_sample_prob` returns
the dataset lengths divided by their sum, and the result sums to `1`. -/
theorem get_sample_prob_is_normalized_lengths (dataset_lens : List ℚ)
    (hne : dataset_lens ≠ []) (hpos : ∀ x ∈ dataset_lens, 0 < x) :
    get_sample_prob dataset_lens =
      dataset_lens.map (fun x => x / dataset_lens.sum) ∧
    (get_sample_prob dataset_lens).sum = 1 := by
  have hS : 0 < dataset_lens.sum := List.sum_pos _ hpos hne
  have h1 : (dataset_lens.map (fun x => x / dataset_lens.sum)).sum = 1 := by
    rw [listSum_map_div, div_self hS.ne']
  have key : get_sample_prob dataset_lens =
      dataset_lens.map (fun x => x / dataset_lens.sum) := by
    unfold get_sample_prob
    simp only [pow_one, List.map_id']
    rw [h1]
    simp
  exact ⟨key, by rw [key, h1]⟩

/-- Witness for C7 at the length vector `[1, 1]`: the probabilities sum to
one. -/
theorem get_sample_prob_is_normalized_lengths_witness :
    (get_sample_prob [(1 : ℚ), 1]).sum = 1 :=
  (get_sample_prob_is_normalized_lengths [1, 1] (by simp)
    (by
      intro x hx
      rcases List.mem_cons.mp hx with rfl | hx
      · exact one_pos
      · rcases List.mem_singleton.mp hx with rfl
        exact one_pos)).2

/-- C8: the objects built by `build_generator` are exactly the framework's
construction of `SequenceScorer` / `SequenceGenerator` for the same
arguments — this file adds no behaviour on top of them. -/
theorem build_generator_matches_framework_construction (M : Type) (models : M)
    (target_dictionary : Dict) (sum_lang : String) (args : GenArgs) :
    build_generator M models target_dictionary sum_lang args =
      if (args.score_reference.getD false) then
        frameworkSequenceScorer M target_dictionary
          (target_dictionary.index (langTok sum_lang))
      else
        frameworkSequenceGenerator M models target_dictionary
          (args.beam.getD 5) (args.max_len_a.getD 0) (args.max_len_b.getD 200)
          (args.min_len.getD 1) (!(args.unnormalized.getD false))
          (args.lenpen.getD 1) (args.unkpen.getD 0) (args.temperature.getD 1)
          (args.match_source_len.getD false) (args.no_repeat_ngram_size.getD 0)
          (target_dictionary.index (langTok sum_lang)) := rfl

/-- C4: `load_langpair_sumdataset` raises `FileNotFoundError` exactly when the
base shard (`k = 0`) exists under neither naming direction
`'{split}.{src}-{tgt}.{src}'` nor `'{split}.{tgt}-{src}.{src}'`; with
`combine` false only the base shard is loaded; with `combine` true
consecutive shards `split, split1, split2, ...` are loaded and the first
missing `k > 0` stops the loop without raising. -/
theorem load_langpair_sumdataset_shard_discovery (fs : IndexedFS)
    (data_path split : String) (src : String) (src_dict : Dict) (src_lang : String)
    (tgt : String) (tgt_dict : Dict) (tgt_lang : String)
    (combine : Bool) (up msp : ℕ) (pb la ts asi tp : Bool) (fuel : ℕ) :
    ((∃ e, load_langpair_sumdataset fs data_path split src src_dict src_lang
        tgt tgt_dict tgt_lang combine up msp pb la ts asi tp fuel = .error e) ↔
      (split_exists fs split src tgt src data_path = false ∧
       split_exists fs split tgt src src data_path = false)) ∧
    (combine = false → ∀ p0, shardStem? fs data_path split src tgt 0 = some p0 →
      gatherStems fs data_path split src tgt combine fuel = .ok [p0]) ∧
    (combine = true → ∀ p0 m, shardStem? fs data_path split src tgt 0 = some p0 →
      1 ≤ m → m ≤ fuel + 1 →
      shardStem? fs data_path split src tgt m = none →
      (∀ k, 1 ≤ k → k < m → (shardStem? fs data_path split src tgt k).isSome) →
      gatherStems fs data_path split src tgt combine fuel =
        .ok (p0 :: (List.range' 1 (m - 1)).map
          (fun i => (shardStem? fs data_path split src tgt i).getD ""))) := by
  have hstem0 : shardStem? fs data_path split src tgt 0 = none ↔
      (split_exists fs split src tgt src data_path = false ∧
       split_exists fs split tgt src src data_path = false) := by
    rw [shardStem?, splitK_zero]
    by_cases h1 : split_exists fs split src tgt src data_path <;>
      by_cases h2 : split_exists fs split tgt src src data_path <;>
      simp [h1, h2]
  refine ⟨?_, ?_, ?_⟩
  · constructor
    · rintro ⟨e, he⟩
      rw [← hstem0]
      unfold load_langpair_sumdataset at he
      cases hg : gatherStems fs data_path split src tgt combine fuel with
      | error e2 =>
        unfold gatherStems at hg
        cases hs : shardStem? fs data_path split src tgt 0 with
        | none => rfl
        | some p =>
          rw [hs] at hg
          cases combine <;> simp at hg
      | ok stems => rw [hg] at he; cases he
    · intro hb
      have hs : shardStem? fs data_path split src tgt 0 = none := hstem0.mpr hb
      refine ⟨"Dataset not found: " ++ split ++ " (" ++ data_path ++ ")", ?_⟩
      unfold load_langpair_sumdataset gatherStems
      rw [hs]
  · rintro rfl p0 hp0
    unfold gatherStems
    rw [hp0]
    rfl
  · rintro rfl p0 m hp0 hm1 hmf hmn hall
    unfold gatherStems
    rw [hp0]
    simp only [if_true]
    rw [gatherMore_of_first_missing fs data_path split src tgt (m - 1) 1 fuel ?_ ?_ (by omega)]
    · intro j hj
      exact hall (1 + j) (by omega) (by omega)
    · rwa [show 1 + (m - 1) = m by omega]

/-- Witness for C4: on `fsNone` the base shard is missing and loading raises;
on `fs4` the base shard is found under the reversed naming direction, and with
`combine` the loop collects shards 0 and 1 and stops at missing shard 2. -/
theorem load_langpair_sumdataset_shard_discovery_witness :
    (load_langpair_sumdataset fsNone "dp" "train" "doc" dictW "en" "sum" dictW "en"
        false 1 10 false false false false false 3).toOption = none ∧
    gatherStems fs4 "dp" "train" "doc" "sum" false 3 = .ok ["dp/train.sum-doc."] ∧
    gatherStems fs4 "dp" "train" "doc" "sum" true 3 =
      .ok ["dp/train.sum-doc.", "dp/train1.doc-sum."] := by
  refine ⟨?_, ?_, ?_⟩
  · obtain ⟨e, he⟩ := (load_langpair_sumdataset_shard_discovery fsNone "dp" "train"
      "doc" dictW "en" "sum" dictW "en" false 1 10 false false false false false
      3).1.mpr ⟨rfl, rfl⟩
    rw [he]
    rfl
  · exact (load_langpair_sumdataset_shard_discovery fs4 "dp" "train" "doc" dictW "en"
      "sum" dictW "en" false 1 10 false false false false false 3).2.1 rfl
      "dp/train.sum-doc." rfl
  · exact (load_langpair_sumdataset_shard_discovery fs4 "dp" "train" "doc" dictW "en"
      "sum" dictW "en" true 1 10 false false false false false 3).2.2 rfl
      "dp/train.sum-doc." 2 rfl (by omega) (by omega) rfl
      (fun k hk1 hk2 => by
        have hk : k = 1 := by omega
        subst hk
        rfl)

/-- Destructuring a successful `load_dataset` call, given the result of the
per-language loading pass. -/
lemma load_dataset_ok_elim (fs : IndexedFS) (args : Args) (src_dict tgt_dict : Dict)
    (perm : ℕ → ℕ → List ℕ) (st : TaskState) (split : String) (epoch : ℕ)
    (combine : Bool) (fuel : ℕ) (st' : TaskState) (ds : List SumDS)
    (hm : (pySplit args.langs_for_sum ',').mapM
        (loadLangDataset fs args src_dict tgt_dict split combine fuel
          ((pySplit args.data ':').getD
            ((epoch - 1) % (pySplit args.data ':').length) "")) = .ok ds)
    (hld : load_dataset fs args src_dict tgt_dict perm st split epoch combine fuel = .ok st') :
    st' =
      { datasets :=
          updateReg
            (updateReg
              ((List.zipWith (fun lang d => (split ++ "_" ++ lang, d))
                  (pySplit args.langs_for_sum ',') ds).foldl
                (fun r p => updateReg r p.1 (RegDS.pair p.2)) st.datasets)
              split
              (RegDS.sorted (RegDS.concat ds)
                (perm (args.seed + epoch) (RegDS.concat ds).numExamples)
                (concatSizes ds)))
            split (RegDS.concat ds)
        valid_subset :=
          if strContains args.valid_subset split then
            pyReplace args.valid_subset split
              (pyJoin "," (split ::
                (List.zipWith (fun lang d => (split ++ "_" ++ lang, d))
                    (pySplit args.langs_for_sum ',') ds).map Prod.fst))
          else args.valid_subset } := by
  simp only [load_dataset] at hld
  rw [hm] at hld
  exact (Except.ok.inj hld).symm

/-- C2: `load_dataset` looks up each language's corpus in the subdirectory
named by the code before the first underscore (inside `loadLangDataset`),
builds one per-language dataset per entry of `langs_for_sum` in order, and
registers under `datasets[split]` the concatenation of these datasets, whose
number of examples is the sum of the per-language lengths. -/
theorem load_dataset_registers_language_concatenation (fs : IndexedFS) (args : Args)
    (src_dict tgt_dict : Dict) (perm : ℕ → ℕ → List ℕ) (st : TaskState)
    (split : String) (epoch : ℕ) (combine : Bool) (fuel : ℕ)
    (st' : TaskState) (ds : List SumDS)
    (hm : (pySplit args.langs_for_sum ',').mapM
        (loadLangDataset fs args src_dict tgt_dict split combine fuel
          ((pySplit args.data ':').getD
            ((epoch - 1) % (pySplit args.data ':').length) "")) = .ok ds)
    (hld : load_dataset fs args src_dict tgt_dict perm st split epoch combine fuel = .ok st') :
    st'.datasets split = some (RegDS.concat ds) ∧
    (RegDS.concat ds).numExamples = (ds.map SumDS.numExamples).sum := by
  have hst := load_dataset_ok_elim fs args src_dict tgt_dict perm st split epoch
    combine fuel st' ds hm hld
  subst hst
  constructor
  · simp [updateReg]
  · show ((ds.map SumDS.src).flatten).length = (ds.map SumDS.numExamples).sum
    rw [List.length_flatten, List.map_map]
    rfl

/-- Witness for C2 on the concrete two-language layout. -/
theorem load_dataset_registers_language_concatenation_witness :
    stW.datasets "train" = some (RegDS.concat dsW) ∧
    (RegDS.concat dsW).numExamples = (dsW.map SumDS.numExamples).sum :=
  load_dataset_registers_language_concatenation fsW argsW dictW dictW permW st0W
    "train" 1 false 5 stW dsW rfl rfl

/-- C3 (code slip): after `load_dataset` returns, `datasets[split]` is NOT the
shuffled `SortDataset` view — line 256 (`self.datasets[split] = dataset`)
overwrites the `SortDataset` assigned at lines 248-254 with the unshuffled
concatenation.  Evaluated on the concrete layout: the registered value is the
plain concatenation, it is not a sorted view, and it differs from the example
stream the discarded shuffled view would present. -/
theorem load_dataset_discards_shuffled_view :
    (load_dataset fsW argsW dictW dictW permW st0W "train" 1 false 5).toOption.map
        (fun s => s.datasets "train") = some (some (RegDS.concat dsW)) ∧
    RegDS.isSortedView (RegDS.concat dsW) = false ∧
    ((RegDS.sorted (RegDS.concat dsW)
        (permW (argsW.seed + 1) (RegDS.concat dsW).numExamples)
        (concatSizes dsW)).examples == (RegDS.concat dsW).examples) = false :=
  ⟨rfl, rfl, rfl⟩

/-- C6: after `load_dataset(split)`, each per-language dataset is registered
under `split + '_' + lang`; when `split` occurs in `args.valid_subset` every
occurrence of `split` is replaced by the comma-joined list of `split` followed
by the per-language split names in order, and otherwise `valid_subset` is
unchanged. -/
theorem load_dataset_valid_subset_bookkeeping (fs : IndexedFS) (args : Args)
    (src_dict tgt_dict : Dict) (perm : ℕ → ℕ → List ℕ) (st : TaskState)
    (split : String) (epoch : ℕ) (combine : Bool) (fuel : ℕ)
    (st' : TaskState) (ds : List SumDS)
    (hm : (pySplit args.langs_for_sum ',').mapM
        (loadLangDataset fs args src_dict tgt_dict split combine fuel
          ((pySplit args.data ':').getD
            ((epoch - 1) % (pySplit args.data ':').length) "")) = .ok ds)
    (hld : load_dataset fs args src_dict tgt_dict perm st split epoch combine fuel = .ok st')
    (hnd : (pySplit args.langs_for_sum ',').Nodup) :
    (∀ (i : ℕ) (hi : i < (pySplit args.langs_for_sum ',').length) (hd : i < ds.length),
      st'.datasets (split ++ "_" ++ (pySplit args.langs_for_sum ',').get ⟨i, hi⟩) =
        some (RegDS.pair (ds.get ⟨i, hd⟩))) ∧
    (strContains args.valid_subset split = true →
      st'.valid_subset = pyReplace args.valid_subset split
        (pyJoin "," (split ::
          (pySplit args.langs_for_sum ',').map (fun l => split ++ "_" ++ l)))) ∧
    (strContains args.valid_subset split = false →
      st'.valid_subset = args.valid_subset) := by
  have hlen : ds.length = (pySplit args.langs_for_sum ',').length :=
    mapM_ok_length _ _ _ hm
  have hst := load_dataset_ok_elim fs args src_dict tgt_dict perm st split epoch
    combine fuel st' ds hm hld
  subst hst
  have hfst : (List.zipWith (fun lang d => (split ++ "_" ++ lang, d))
      (pySplit args.langs_for_sum ',') ds).map Prod.fst =
      (pySplit args.langs_for_sum ',').map (fun l => split ++ "_" ++ l) :=
    zipWith_pair_fst _ _ _ hlen
  refine ⟨?_, ?_, ?_⟩
  · intro i hi hd
    have hkey : split ++ "_" ++ (pySplit args.langs_for_sum ',').get ⟨i, hi⟩ ≠ split :=
      append_key_ne split _
    show updateReg _ split (RegDS.concat ds) _ = _
    rw [updateReg, if_neg hkey, updateReg, if_neg hkey]
    have hndk : ((List.zipWith (fun lang d => (split ++ "_" ++ lang, d))
        (pySplit args.langs_for_sum ',') ds).map Prod.fst).Nodup := by
      rw [hfst]
      exact List.Nodup.map (append_key_inj split) hnd
    have hin : i < (List.zipWith (fun lang d => (split ++ "_" ++ lang, d))
        (pySplit args.langs_for_sum ',') ds).length := by
      rw [List.length_zipWith]
      omega
    have hfold := foldl_updateReg_get _ st.datasets hndk i hin
    have hget : (List.zipWith (fun lang d => (split ++ "_" ++ lang, d))
        (pySplit args.langs_for_sum ',') ds).get ⟨i, hin⟩ =
        (split ++ "_" ++ (pySplit args.langs_for_sum ',').get ⟨i, hi⟩, ds.get ⟨i, hd⟩) := by
      simp [List.get_eq_getElem, List.getElem_zipWith]
    rw [hget] at hfold
    exact hfold
  · intro hin
    show (if strContains args.valid_subset split then _ else _) = _
    rw [if_pos hin, hfst]
  · intro hout
    show (if strContains args.valid_subset split then _ else _) = _
    rw [if_neg (by simp [hout])]

/-- Witness for C6: on the concrete layout the English dataset is registered
under `train_en_XX`, and `valid_subset` (which does not contain `train`) is
unchanged. -/
theorem load_dataset_valid_subset_bookkeeping_witness :
    stW.datasets "train_en_XX" = some (RegDS.pair dEnW) ∧
    stW.valid_subset = "valid" := by
  have h := load_dataset_valid_subset_bookkeeping fsW argsW dictW dictW permW st0W
    "train" 1 false 5 stW dsW rfl rfl (by decide)
  exact ⟨h.1 0 (by decide) (by decide), h.2.2 (by decide)⟩

/-- C10: `load_dataset` reads the BOS flag through the misspelled attribute
name `'preprend_bos'`; for argument namespaces that define `prepend_bos` but
no attribute spelled `'preprend_bos'`, the dataset is built with
`prepend_bos=False`, and no beginning-of-sentence index is ever consulted:
the result is unchanged when the misspelled attribute is pinned to `False`
and when both dictionaries' `bos` indices are replaced arbitrarily. -/
theorem load_dataset_reads_misspelled_prepend_bos (fs : IndexedFS) (args : Args)
    (src_dict tgt_dict : Dict) (b1 b2 : ℕ) (perm : ℕ → ℕ → List ℕ) (st : TaskState)
    (split : String) (epoch : ℕ) (combine : Bool) (fuel : ℕ)
    (hdef : (args.boolAttrs "prepend_bos").isSome)
    (hnone : args.boolAttrs "preprend_bos" = none) :
    load_dataset fs args src_dict tgt_dict perm st split epoch combine fuel =
      load_dataset fs
        { args with boolAttrs := fun n =>
            if n = "preprend_bos" then some false else args.boolAttrs n }
        ⟨src_dict.index, src_dict.eos, b1⟩ ⟨tgt_dict.index, tgt_dict.eos, b2⟩
        perm st split epoch combine fuel := by
  have hfg : ∀ dp, loadLangDataset fs args src_dict tgt_dict split combine fuel dp =
      loadLangDataset fs
        { args with boolAttrs := fun n =>
            if n = "preprend_bos" then some false else args.boolAttrs n }
        ⟨src_dict.index, src_dict.eos, b1⟩ ⟨tgt_dict.index, tgt_dict.eos, b2⟩
        split combine fuel dp := by
    intro dp
    funext lang
    unfold loadLangDataset
    rw [hnone]
    rfl
  simp only [load_dataset]
  rw [hfg]

/-- Witness for C10: on arguments defining only the correctly spelled
`prepend_bos`, pinning the misspelled attribute to `False` and changing both
`bos` indices leaves `load_dataset` unchanged. -/
theorem load_dataset_reads_misspelled_prepend_bos_witness :
    load_dataset fsW args10 dictW dictW permW st0W "train" 1 false 5 =
      load_dataset fsW
        { args10 with boolAttrs := fun n =>
            if n = "preprend_bos" then some false else args10.boolAttrs n }
        ⟨dictW.index, dictW.eos, 99⟩ ⟨dictW.index, dictW.eos, 42⟩
        permW st0W "train" 1 false 5 :=
  load_dataset_reads_misspelled_prepend_bos fsW args10 dictW dictW 99 42 permW st0W
    "train" 1 false 5 rfl rfl
